import Mathlib

/-
Verification of the watermark codec and UI-orchestration properties of the
BANANA0929 application.

The repository's sources contain the orchestration layer (`App.tsx`), the
Gemini service wrappers (`editImage`, `generateImageEditsBatch`, ...) and the
`MultiImageGridUploader` component; those are embedded directly from the
source.  The watermark codec itself (`embedWatermark` / `addVisibleWatermark` /
the decoder in `utils/fileUtils`) is not among the provided sources, so the
codec operations are modelled from the specification (sections 3, 4.1-4.3),
as noted on each definition.
-/

namespace Banana

/-! ## Bit-level primitives (spec section 3, "Encoded Bitstream") -/

/-- Modelled from the spec: fixed-width big-endian bit serialization
("serialize payload length as a fixed-width prefix (e.g., 32 bits)";
"most-significant-bit first per byte").  `natToBits w n` is the low `w` bits
of `n`, most significant first. -/
def natToBits : Nat → Nat → List Nat
  | 0, _ => []
  | w + 1, n => natToBits w (n / 2) ++ [n % 2]

/-- Reassemble a most-significant-bit-first bit list into a number. -/
def bitsToNat (bits : List Nat) : Nat :=
  bits.foldl (fun acc b => 2 * acc + b) 0

/-- Modelled from the spec: the encoded bitstream is the 32-bit length prefix
(payload byte length) followed by the payload bytes, each expanded
most-significant-bit first (spec section 4.1). -/
def encodeBits (payload : List Nat) : List Nat :=
  natToBits 32 payload.length ++ payload.flatMap (natToBits 8)

/-- Modelled from the spec: group a bit list into bytes, 8 consecutive
bits per byte (spec section 4.2, "each byte = 8 consecutive extracted
bits"); a trailing
group of fewer than 8 bits is dropped (the decoder always passes a multiple
of 8). -/
def bitsToBytes : List Nat → List Nat
  | b0 :: b1 :: b2 :: b3 :: b4 :: b5 :: b6 :: b7 :: rest =>
      bitsToNat [b0, b1, b2, b3, b4, b5, b6, b7] :: bitsToBytes rest
  | _ => []

/-! ## Pixel buffers (spec section 3, "Image Buffer") -/

/-- An RGBA pixel buffer: `data` is the flat channel list in raster order,
4 channels per pixel, channel index `j` is the alpha channel iff `j % 4 = 3`. -/
structure Image where
  width : Nat
  height : Nat
  data : List Nat
  deriving DecidableEq, Repr

/-- A well-formed RGBA buffer: one byte per channel, 4 channels per pixel. -/
def WellFormed (img : Image) : Prop :=
  img.data.length = 4 * (img.width * img.height) ∧ ∀ b ∈ img.data, b < 256

/-- Error kinds of the codec (spec section 7). -/
inductive WatermarkError where
  | capacityExceeded
  | renderFailure
  deriving DecidableEq, Repr

/-- Modelled from the spec: write the bits into the least-significant bit of
successive non-alpha channels ("cycle through red, green, blue channels in
raster-scan pixel order; skip or preserve the alpha channel"); `j` is the
flat channel index of the head of `data`. -/
def embedData : List Nat → List Nat → Nat → List Nat
  | [], _, _ => []
  | d :: ds, [], _ => d :: ds
  | d :: ds, b :: bs, j =>
      if j % 4 = 3 then d :: embedData ds (b :: bs) (j + 1)
      else (2 * (d / 2) + b) :: embedData ds bs (j + 1)

/-- Modelled from the spec: read the least-significant bits of the
non-alpha channels in raster order (spec section 4.2); `j` is the flat channel index of the head of `data`. -/
def extractBits : List Nat → Nat → List Nat
  | [], _ => []
  | d :: ds, j =>
      if j % 4 = 3 then extractBits ds (j + 1)
      else d % 2 :: extractBits ds (j + 1)

/-- Modelled from the spec (section 4.1, `embedWatermark` is not among the
provided sources): capacity-check the encoded bitstream against the 3
writable channels per pixel, then overwrite least-significant bits.  The
payload is the UTF-8 byte sequence of the watermark text. -/
def embedInvisible (img : Image) (payload : List Nat) : Except WatermarkError Image :=
  let bits := encodeBits payload
  if 3 * (img.width * img.height) < bits.length then .error .capacityExceeded
  else .ok { img with data := embedData img.data bits 0 }

/-- The 32-bit length a decoder reads back from an image's bit channel. -/
def declaredLen (img : Image) : Nat :=
  bitsToNat ((extractBits img.data 0).take 32)

/-- Modelled from the spec (section 4.2, the decoder is not among the
provided sources): read the 32-bit declared length, reject it if it exceeds
the theoretical capacity ("treat as no valid watermark ... rather than
attempting to read out-of-bounds bits"), else read that many bytes. -/
def decodeInvisible (img : Image) : Option (List Nat) :=
  let lsbs := extractBits img.data 0
  let len := bitsToNat (lsbs.take 32)
  if 3 * (img.width * img.height) < 32 + 8 * len then none
  else some (bitsToBytes ((lsbs.drop 32).take (8 * len)))

/-- The image produced by a successful invisible embedding. -/
def embedded (img : Image) (payload : List Nat) : Image :=
  ⟨img.width, img.height, embedData img.data (encodeBits payload) 0⟩

/-! ## Visible watermark overlay (spec section 4.3) -/

/-- Modelled from the spec: the stamp region is the bottom-right corner,
with extent proportional to the image dimensions (section 4.3: "fixed
relative position (e.g., bottom-right with margin proportional to image
dimensions)"). -/
def inStampRegion (w h x y : Nat) : Bool :=
  decide (w - w / 4 ≤ x) && decide (h - h / 10 ≤ y)

/-- Modelled from the spec: composite the semi-transparent stamp into
the color channels of the stamp region, leaving alpha untouched; glyph
rasterization is abstracted into a uniform 50%-white blend (section 9:
"abstract as: render text onto a pixel buffer at given
position/opacity/font-scale"). -/
def compositeData (w h : Nat) : List Nat → Nat → List Nat
  | [], _ => []
  | v :: vs, j =>
      (if j % 4 ≠ 3 ∧ inStampRegion w h (j / 4 % w) (j / 4 / w) = true
        then (v + 255) / 2 else v) :: compositeData w h vs (j + 1)

/-- Modelled from the spec (section 4.3, `addVisibleWatermark` is not among
the provided sources): fail explicitly on a zero-sized image, otherwise
return a new image of identical dimensions with the stamp composited in. -/
def applyVisible (img : Image) (_text : String) : Except WatermarkError Image :=
  if img.width = 0 ∨ img.height = 0 then .error .renderFailure
  else .ok ⟨img.width, img.height, compositeData img.width img.height img.data 0⟩

/-! ## The orchestration layer (src/App.tsx) -/

/-- The watermark text used by `applyWatermarks` (src/App.tsx line 249). -/
def wmText : String := "Nano Bananary｜ZHO"

/-- From src/App.tsx, `applyWatermarks` (lines 246-256).  The two steps
`embedWatermark` and `addVisibleWatermark` live in `utils/fileUtils`,
which is not among the provided sources, so the function is parametric in
them; each step either returns a new image URL or throws (`Except.error`).
A `none` input models the `null` image URL; the source's guard
`if (!imageUrl) return null` is a JavaScript falsy test, so the empty
string also returns `none` without invoking either watermarking step. -/
def applyWatermarks (embedW addVisW : String → String → Except String String) :
    Option String → Option String
  | none => none
  | some imageUrl =>
    if imageUrl = "" then none
    else
      match embedW imageUrl wmText with
      | .error _ => some imageUrl
      | .ok invisiblyWatermarked =>
        match addVisW invisiblyWatermarked wmText with
        | .error _ => some imageUrl
        | .ok visiblyWatermarked => some visiblyWatermarked

/-! ## The Gemini service wrappers (src/unnamed/part_000) -/

/-- The result record of the service calls (`GeneratedContent` of the app's
types): a data-URI image and an optional text, both nullable. -/
structure GeneratedContent where
  imageUrl : Option String
  text : Option String
  deriving DecidableEq, Repr

/-- One `inlineData` blob of a model response part. -/
structure InlineData where
  mimeType : String
  data : String
  deriving DecidableEq, Repr

/-- One part of a model response candidate; `text` is `some ""` when the
field is present but empty (falsy in the source's truthiness test). -/
structure RespPart where
  text : Option String
  inlineData : Option InlineData
  deriving DecidableEq, Repr

/-- A safety rating attached to a candidate. -/
structure SafetyRating where
  category : String
  blocked : Bool
  deriving DecidableEq, Repr

/-- One response candidate; `parts` is `candidates[0]?.content?.parts` of
the source collapsed into a single optional field. -/
structure Candidate where
  parts : Option (List RespPart)
  finishReason : Option String
  safetyRatings : Option (List SafetyRating)
  deriving DecidableEq, Repr

/-- A model response as consumed by `editImage` (src/unnamed/part_000). -/
structure GenResponse where
  candidates : List Candidate
  deriving DecidableEq, Repr

/-- From src/unnamed/part_000 (lines 56-64): the loop body over the
response parts.  A truthy (non-empty) `part.text` is appended to the
accumulated text with a `"\n"` separator; otherwise a present
`part.inlineData` overwrites the image URL with a data URI. -/
def stepPart (result : GeneratedContent) (p : RespPart) : GeneratedContent :=
  match p.text with
  | some t =>
      if t = "" then
        match p.inlineData with
        | some d => { result with
            imageUrl := some ("data:" ++ d.mimeType ++ ";base64," ++ d.data) }
        | none => result
      else
        { result with text := some ((match result.text with
            | some prev => if prev = "" then "" else prev ++ "\n"
            | none => "") ++ t) }
  | none =>
      match p.inlineData with
      | some d => { result with
          imageUrl := some ("data:" ++ d.mimeType ++ ";base64," ++ d.data) }
      | none => result

/-- The `GeneratedContent` accumulated from the first candidate's parts
(src/unnamed/part_000, lines 53-64). -/
def respContent (resp : GenResponse) : GeneratedContent :=
  match resp.candidates.head?.bind (·.parts) with
  | some ps => ps.foldl stepPart ⟨none, none⟩
  | none => ⟨none, none⟩

/-- From src/unnamed/part_000 (lines 75-78): the safety-specific error
message, joining the blocked categories (or `Unknown` when there are
none). -/
def safetyMessage (resp : GenResponse) : String :=
  let ratings := (resp.candidates.head?.bind (·.safetyRatings)).getD []
  let cats := String.intercalate ", " ((ratings.filter (·.blocked)).map (·.category))
  "The request was blocked for safety reasons. Categories: " ++
    (if cats = "" then "Unknown" else cats) ++ ". Please modify your prompt or image."

/-- From src/unnamed/part_000 (lines 71-79): the error message when the
response carried no image and no text. -/
def noImageMessage (resp : GenResponse) : String :=
  if resp.candidates.head?.bind (·.finishReason) = some "SAFETY" then safetyMessage resp
  else "The model did not return an image. It might have refused the request. Please try a different image or prompt."

/-- From src/unnamed/part_000, `editImage` (lines 10-105), modelled as a
function of the model response (the API call itself and its transport
errors are outside the buffer-level model; the outer `catch` only
re-throws with a possibly rewritten message, which does not affect
whether the call throws).  `Except.error` models a thrown `Error`. -/
def editImage (resp : GenResponse) : Except String GeneratedContent :=
  let result := respContent resp
  match result.imageUrl with
  | some _ => .ok result
  | none =>
      .error (match result.text with
        | some t =>
            if t = "" then noImageMessage resp
            else "The model responded: \"" ++ t ++ "\""
        | none => noImageMessage resp)

/-- The settlement rule of `Promise.all`: reject with the first rejection,
else resolve with the list of values. -/
def promiseAll {ε α : Type} : List (Except ε α) → Except ε (List α)
  | [] => .ok []
  | .error e :: _ => .error e
  | .ok a :: rest =>
      match promiseAll rest with
      | .error e => .error e
      | .ok xs => .ok (a :: xs)

/-- The message of the empty-batch branch (src/unnamed/part_000 line 121). -/
def batchFailMsg : String :=
  "Failed to generate any image variations. The model may have refused the request."

/-- From src/unnamed/part_000, `generateImageEditsBatch` (lines 107-133),
as a function of the four child responses: fan out `editImage` over them
via `Promise.all`, keep the non-null image URLs, and fail on an empty
result.  The outer `catch` re-throws the child's message unchanged. -/
def generateImageEditsBatch (rs : List GenResponse) : Except String (List String) :=
  match promiseAll (rs.map editImage) with
  | .error e => .error e
  | .ok results =>
      let imageUrls := results.filterMap (·.imageUrl)
      if imageUrls.isEmpty then .error batchFailMsg
      else .ok imageUrls

/-! ## The grid uploader (src/components/MultiImageGridUploader.tsx) -/

/-- From src/components/MultiImageGridUploader.tsx, `handleFiles`
(lines 14-33).  A file is modelled by the data URL its `FileReader`
produces, and the asynchronous readers are modelled as completing in start
order (the claim's length and prefix facts do not depend on that order).
`files.slice(0, maxImages - imageUrls.length)` is modelled with
JavaScript's negative-end semantics; `none` models the early return on
which `onImagesChange` is never called. -/
def handleFiles (imageUrls : List String) (maxImages : Nat) (files : List String) :
    Option (List String) :=
  let bound : Int := (maxImages : Int) - (imageUrls.length : Int)
  let filesToProcess :=
    files.take (if bound < 0 then ((files.length : Int) + bound).toNat else bound.toNat)
  if filesToProcess.isEmpty then none
  else some (imageUrls ++ filesToProcess)

/-! ## Helper lemmas about the service model -/

/-- Any image URL ever stored by the parts loop is a data URI. -/
def DataUri (u : String) : Prop :=
  ∃ m d, u = "data:" ++ m ++ ";base64," ++ d

/-! ## Concrete instances used by witnesses and the counterexample -/

/-- A 4x4 opaque grey test image (capacity 48 bits). -/
def wImg : Image := ⟨4, 4, List.replicate 64 200⟩

/-- A 4x4 test image for the frame-condition witness. -/
def fImg : Image := ⟨4, 4, List.replicate 64 7⟩

/-- A 2^34 x 1 all-black image, large enough that a 2^32-byte payload
passes the capacity check. -/
def cImg : Image := ⟨2 ^ 34, 1, List.replicate (4 * 2 ^ 34) 0⟩

/-- A payload of exactly 2^32 zero bytes: its length is truncated to 0 by
the 32-bit length prefix. -/
def cPayload : List Nat := List.replicate (2 ^ 32) 0

/-- The image produced by embedding `cPayload` into `cImg`. -/
def cOut : Image := embedded cImg cPayload

/-- A response whose only candidate carries one inline-data part. -/
def okResp : GenResponse :=
  ⟨[⟨some [⟨none, some ⟨"image/png", "AA"⟩⟩], none, none⟩]⟩

/-- A response blocked for safety: no parts, finish reason SAFETY. -/
def sResp : GenResponse :=
  ⟨[⟨some [], some "SAFETY", some [⟨"HARM_X", true⟩]⟩]⟩

/-! ## Lemmas and theorems -/

/-! ## Basic lemmas about the bit primitives -/

theorem natToBits_length (w n : Nat) : (natToBits w n).length = w := by
  induction w generalizing n with
  | zero => rfl
  | succ w ih => simp [natToBits, ih]

theorem natToBits_lt_two (w n : Nat) : ∀ b ∈ natToBits w n, b < 2 := by
  induction w generalizing n with
  | zero => simp [natToBits]
  | succ w ih =>
    intro b hb
    simp only [natToBits, List.mem_append, List.mem_singleton] at hb
    rcases hb with hb | hb
    · exact ih _ _ hb
    · omega

theorem bitsToNat_append_one (xs : List Nat) (b : Nat) :
    bitsToNat (xs ++ [b]) = 2 * bitsToNat xs + b := by
  simp [bitsToNat, List.foldl_append]

theorem bitsToNat_natToBits (w n : Nat) : bitsToNat (natToBits w n) = n % 2 ^ w := by
  induction w generalizing n with
  | zero => simp [natToBits, bitsToNat, Nat.mod_one]
  | succ w ih =>
    rw [natToBits, bitsToNat_append_one, ih]
    rw [pow_succ, mul_comm (2 ^ w) 2, Nat.mod_mul]
    ring

theorem natToBits_eight (b : Nat) :
    natToBits 8 b = [b / 2 / 2 / 2 / 2 / 2 / 2 / 2 % 2, b / 2 / 2 / 2 / 2 / 2 / 2 % 2,
      b / 2 / 2 / 2 / 2 / 2 % 2, b / 2 / 2 / 2 / 2 % 2, b / 2 / 2 / 2 % 2,
      b / 2 / 2 % 2, b / 2 % 2, b % 2] := rfl

theorem bitsToBytes_cons_eight (b0 b1 b2 b3 b4 b5 b6 b7 : Nat) (rest : List Nat) :
    bitsToBytes (b0 :: b1 :: b2 :: b3 :: b4 :: b5 :: b6 :: b7 :: rest) =
      bitsToNat [b0, b1, b2, b3, b4, b5, b6, b7] :: bitsToBytes rest := rfl

theorem bitsToNat_natToBits_eight (b : Nat) (hb : b < 256) :
    bitsToNat (natToBits 8 b) = b := by
  have h := bitsToNat_natToBits 8 b
  rw [show (2 : Nat) ^ 8 = 256 by norm_num] at h
  rw [h, Nat.mod_eq_of_lt hb]

/-! ## Structural lemmas about embedding and extraction -/

theorem embedData_length (data : List Nat) : ∀ (bits : List Nat) (j : Nat),
    (embedData data bits j).length = data.length := by
  induction data with
  | nil => intro bits j; cases bits <;> rfl
  | cons d ds ih =>
    intro bits j
    cases bits with
    | nil => rfl
    | cons b bs =>
      by_cases hj : j % 4 = 3
      · simp [embedData, hj, ih]
      · simp [embedData, hj, ih]

theorem extractBits_length_aligned :
    ∀ (k : Nat) (data : List Nat) (m : Nat), data.length = 4 * k →
      (extractBits data (4 * m)).length = 3 * k := by
  intro k
  induction k with
  | zero =>
    intro data m h
    rw [Nat.mul_zero, List.length_eq_zero] at h
    subst h
    rfl
  | succ k ih =>
    intro data m h
    rcases data with _ | ⟨a, data⟩
    · simp at h
    rcases data with _ | ⟨b, data⟩
    · simp at h; omega
    rcases data with _ | ⟨c, data⟩
    · simp at h; omega
    rcases data with _ | ⟨d, data⟩
    · simp at h; omega
    have hr : data.length = 4 * k := by simp at h; omega
    simp only [extractBits]
    rw [if_neg (by omega), if_neg (by omega), if_neg (by omega), if_pos (by omega)]
    simp only [List.length_cons]
    rw [show 4 * m + 1 + 1 + 1 + 1 = 4 * (m + 1) by ring, ih data (m + 1) hr]
    ring

theorem extractBits_embedData (data : List Nat) : ∀ (bits : List Nat) (j : Nat),
    (∀ b ∈ bits, b < 2) → bits.length ≤ (extractBits data j).length →
    extractBits (embedData data bits j) j = bits ++ (extractBits data j).drop bits.length := by
  induction data with
  | nil =>
    intro bits j _ hlen
    simp only [extractBits, List.length_nil, Nat.le_zero, List.length_eq_zero] at hlen
    subst hlen
    rfl
  | cons d ds ih =>
    intro bits j hb hlen
    rcases bits with _ | ⟨b, bs⟩
    · simp [embedData]
    by_cases hj : j % 4 = 3
    · simp only [extractBits, if_pos hj] at hlen ⊢
      simp only [embedData, if_pos hj, extractBits, if_pos hj]
      exact ih (b :: bs) (j + 1) hb hlen
    · simp only [extractBits, if_neg hj, List.length_cons] at hlen
      simp only [embedData, if_neg hj, extractBits, if_neg hj]
      have hb2 : b < 2 := hb b (by simp)
      rw [show (2 * (d / 2) + b) % 2 = b by omega]
      rw [ih bs (j + 1) (fun x hx => hb x (by simp [hx])) (by omega)]
      simp [extractBits, if_neg hj, List.drop_succ_cons]

theorem flatMapBits_length (payload : List Nat) :
    (payload.flatMap (natToBits 8)).length = 8 * payload.length := by
  induction payload with
  | nil => rfl
  | cons b bs ih =>
    rw [List.flatMap_cons, List.length_append, natToBits_length, ih, List.length_cons]
    ring

theorem encodeBits_length (payload : List Nat) :
    (encodeBits payload).length = 32 + 8 * payload.length := by
  rw [encodeBits, List.length_append, natToBits_length, flatMapBits_length]

theorem encodeBits_lt_two (payload : List Nat) : ∀ b ∈ encodeBits payload, b < 2 := by
  intro b hb
  simp only [encodeBits, List.mem_append, List.mem_flatMap] at hb
  rcases hb with hb | ⟨x, _, hb⟩
  · exact natToBits_lt_two 32 _ b hb
  · exact natToBits_lt_two 8 x b hb

theorem bitsToBytes_flatMap (payload : List Nat) (h : ∀ b ∈ payload, b < 256) :
    bitsToBytes (payload.flatMap (natToBits 8)) = payload := by
  induction payload with
  | nil => rfl
  | cons b bs ih =>
    rw [List.flatMap_cons, natToBits_eight]
    simp only [List.cons_append, List.nil_append]
    rw [bitsToBytes_cons_eight]
    have hbyte : bitsToNat [b / 2 / 2 / 2 / 2 / 2 / 2 / 2 % 2, b / 2 / 2 / 2 / 2 / 2 / 2 % 2,
        b / 2 / 2 / 2 / 2 / 2 % 2, b / 2 / 2 / 2 / 2 % 2, b / 2 / 2 / 2 % 2,
        b / 2 / 2 % 2, b / 2 % 2, b % 2] = b := by
      have := bitsToNat_natToBits_eight b (h b (by simp))
      rwa [natToBits_eight] at this
    rw [hbyte, ih (fun x hx => h x (by simp [hx]))]

theorem take_append_length {α : Type} (l1 l2 : List α) (n : Nat) (h : l1.length = n) :
    (l1 ++ l2).take n = l1 := by
  subst h
  exact List.take_left l1 l2

theorem drop_append_length {α : Type} (l1 l2 : List α) (n : Nat) (h : l1.length = n) :
    (l1 ++ l2).drop n = l2 := by
  subst h
  exact List.drop_left l1 l2

theorem roundTrip_core (img : Image) (payload : List Nat)
    (hwf : WellFormed img) (hbytes : ∀ b ∈ payload, b < 256)
    (hcap : 32 + 8 * payload.length ≤ 3 * (img.width * img.height))
    (hlen : payload.length < 2 ^ 32) :
    embedInvisible img payload = .ok (embedded img payload) ∧
      decodeInvisible (embedded img payload) = some payload := by
  obtain ⟨hdl, hdb⟩ := hwf
  have hble : (encodeBits payload).length = 32 + 8 * payload.length := encodeBits_length payload
  have hcond : ¬ 3 * (img.width * img.height) < (encodeBits payload).length := by
    rw [hble]; omega
  have hext : (extractBits img.data 0).length = 3 * (img.width * img.height) := by
    have h := extractBits_length_aligned (img.width * img.height) img.data 0 (by rw [hdl])
    simpa using h
  have hEE := extractBits_embedData img.data (encodeBits payload) 0
    (encodeBits_lt_two payload) (by rw [hble, hext]; omega)
  constructor
  · simp only [embedInvisible]
    rw [if_neg hcond]
    rfl
  · simp only [decodeInvisible, embedded]
    rw [hEE]
    simp only [encodeBits, List.append_assoc]
    rw [take_append_length _ _ 32 (natToBits_length 32 _)]
    rw [bitsToNat_natToBits, Nat.mod_eq_of_lt hlen]
    rw [if_neg (by omega : ¬ 3 * (img.width * img.height) < 32 + 8 * payload.length)]
    rw [drop_append_length _ _ 32 (natToBits_length 32 _)]
    rw [take_append_length _ _ (8 * payload.length) (flatMapBits_length payload)]
    rw [bitsToBytes_flatMap payload hbytes]

theorem bitsToBytes_length_mul :
    ∀ (k : Nat) (bits : List Nat), bits.length = 8 * k → (bitsToBytes bits).length = k := by
  intro k
  induction k with
  | zero =>
    intro bits h
    rw [Nat.mul_zero, List.length_eq_zero] at h
    subst h
    rfl
  | succ k ih =>
    intro bits h
    rcases bits with _ | ⟨b0, bits⟩; · simp at h
    rcases bits with _ | ⟨b1, bits⟩; · simp at h; omega
    rcases bits with _ | ⟨b2, bits⟩; · simp at h; omega
    rcases bits with _ | ⟨b3, bits⟩; · simp at h; omega
    rcases bits with _ | ⟨b4, bits⟩; · simp at h; omega
    rcases bits with _ | ⟨b5, bits⟩; · simp at h; omega
    rcases bits with _ | ⟨b6, bits⟩; · simp at h; omega
    rcases bits with _ | ⟨b7, bits⟩; · simp at h; omega
    have hr : bits.length = 8 * k := by simp at h; omega
    rw [bitsToBytes_cons_eight, List.length_cons, ih bits hr]

/-- Pointwise effect of `embedData`: every channel keeps its high bits, and
a channel at an alpha position (`(j + i) % 4 = 3` for offset `i` from start
index `j`) keeps its exact value. -/
theorem embedData_getD (data : List Nat) : ∀ (bits : List Nat) (j i : Nat),
    (∀ b ∈ bits, b < 2) →
    ((embedData data bits j).getD i 0) / 2 = (data.getD i 0) / 2 ∧
      ((j + i) % 4 = 3 → (embedData data bits j).getD i 0 = data.getD i 0) := by
  induction data with
  | nil => intro bits j i _; cases bits <;> exact ⟨rfl, fun _ => rfl⟩
  | cons d ds ih =>
    intro bits j i hb
    rcases bits with _ | ⟨b, bs⟩
    · exact ⟨rfl, fun _ => rfl⟩
    have hb2 : b < 2 := hb b (by simp)
    have hbs : ∀ x ∈ bs, x < 2 := fun x hx => hb x (by simp [hx])
    by_cases hj : j % 4 = 3
    · simp only [embedData, if_pos hj]
      cases i with
      | zero => exact ⟨rfl, fun _ => rfl⟩
      | succ i =>
        simp only [List.getD_cons_succ]
        have h := ih (b :: bs) (j + 1) i hb
        exact ⟨h.1, fun ha => h.2 (by omega)⟩
    · simp only [embedData, if_neg hj]
      cases i with
      | zero =>
        simp only [List.getD_cons_zero]
        constructor
        · omega
        · intro ha; omega
      | succ i =>
        simp only [List.getD_cons_succ]
        have h := ih bs (j + 1) i hbs
        exact ⟨h.1, fun ha => h.2 (by omega)⟩

theorem compositeData_length (w h : Nat) :
    ∀ (data : List Nat) (j : Nat), (compositeData w h data j).length = data.length := by
  intro data
  induction data with
  | nil => intro j; rfl
  | cons v vs ih => intro j; simp [compositeData, ih]

theorem stepPart_imageUrl (acc : GeneratedContent) (p : RespPart)
    (h : acc.imageUrl = none ∨ ∃ u, acc.imageUrl = some u ∧ DataUri u) :
    (stepPart acc p).imageUrl = none ∨
      ∃ u, (stepPart acc p).imageUrl = some u ∧ DataUri u := by
  rcases p with ⟨ptext, pdata⟩
  rcases ptext with _ | t
  · rcases pdata with _ | d
    · simpa [stepPart] using h
    · right
      exact ⟨_, rfl, d.mimeType, d.data, rfl⟩
  · by_cases ht : t = ""
    · rcases pdata with _ | d
      · simpa [stepPart, ht] using h
      · right
        refine ⟨_, ?_, d.mimeType, d.data, rfl⟩
        simp [stepPart, ht]
    · simpa [stepPart, ht] using h

theorem foldl_stepPart_imageUrl (ps : List RespPart) :
    ∀ (acc : GeneratedContent),
      (acc.imageUrl = none ∨ ∃ u, acc.imageUrl = some u ∧ DataUri u) →
      ((ps.foldl stepPart acc).imageUrl = none ∨
        ∃ u, (ps.foldl stepPart acc).imageUrl = some u ∧ DataUri u) := by
  induction ps with
  | nil => intro acc h; simpa using h
  | cons p ps ih =>
    intro acc h
    simpa [List.foldl_cons] using ih (stepPart acc p) (stepPart_imageUrl acc p h)

theorem respContent_imageUrl (resp : GenResponse) :
    (respContent resp).imageUrl = none ∨
      ∃ u, (respContent resp).imageUrl = some u ∧ DataUri u := by
  rw [respContent]
  rcases resp.candidates.head?.bind (·.parts) with _ | ps
  · exact Or.inl rfl
  · exact foldl_stepPart_imageUrl ps ⟨none, none⟩ (Or.inl rfl)

theorem editImage_ok (resp : GenResponse) (r : GeneratedContent)
    (h : editImage resp = .ok r) :
    r = respContent resp ∧ ∃ u, r.imageUrl = some u ∧ DataUri u := by
  rcases hr : (respContent resp).imageUrl with _ | u
  · rw [editImage] at h
    rw [hr] at h
    cases h
  · rw [editImage] at h
    rw [hr] at h
    cases h
    refine ⟨rfl, u, hr, ?_⟩
    rcases respContent_imageUrl resp with h0 | ⟨u', hu', hd⟩
    · rw [h0] at hr; cases hr
    · rw [hu'] at hr; cases hr; exact hd

theorem promiseAll_ok {ε α : Type} :
    ∀ (l : List (Except ε α)) (xs : List α), promiseAll l = .ok xs → l = xs.map .ok := by
  intro l
  induction l with
  | nil =>
    intro xs h
    rw [promiseAll] at h
    cases h
    rfl
  | cons x l ih =>
    intro xs h
    rcases x with e | a
    · rw [promiseAll] at h; cases h
    · rw [promiseAll] at h
      rcases hp : promiseAll l with e | ys
      · rw [hp] at h; cases h
      · rw [hp] at h
        cases h
        rw [List.map_cons, ← ih ys hp]

theorem promiseAll_of_all_ok {ε α : Type} :
    ∀ (l : List (Except ε α)), (∀ x ∈ l, ∃ a, x = .ok a) →
      ∃ xs, promiseAll l = .ok xs := by
  intro l
  induction l with
  | nil => intro _; exact ⟨[], rfl⟩
  | cons x l ih =>
    intro h
    obtain ⟨a, rfl⟩ := h x (by simp)
    obtain ⟨xs, hxs⟩ := ih (fun y hy => h y (by simp [hy]))
    exact ⟨a :: xs, by rw [promiseAll, hxs]⟩

theorem promiseAll_error {ε α : Type} :
    ∀ (l : List (Except ε α)) (e : ε), promiseAll l = .error e → .error e ∈ l := by
  intro l
  induction l with
  | nil => intro e h; rw [promiseAll] at h; cases h
  | cons x l ih =>
    intro e h
    rcases x with e' | a
    · rw [promiseAll] at h
      cases h
      simp
    · rw [promiseAll] at h
      rcases hp : promiseAll l with e' | ys
      · rw [hp] at h
        cases h
        exact List.mem_cons_of_mem _ (ih _ hp)
      · rw [hp] at h; cases h

theorem promiseAll_error_of_mem {ε α : Type} :
    ∀ (l : List (Except ε α)) (e : ε), .error e ∈ l → ∃ e', promiseAll l = .error e' := by
  intro l
  induction l with
  | nil => intro e h; cases h
  | cons x l ih =>
    intro e h
    rcases x with e' | a
    · exact ⟨e', by rw [promiseAll]⟩
    · have hm : Except.error e ∈ l := by
        rcases List.mem_cons.mp h with h0 | h0
        · cases h0
        · exact h0
      obtain ⟨e', he'⟩ := ih e hm
      exact ⟨e', by rw [promiseAll, he']⟩

theorem filterMap_length_of_isSome {α β : Type} (f : α → Option β) :
    ∀ (l : List α), (∀ x ∈ l, (f x).isSome) → (l.filterMap f).length = l.length := by
  intro l
  induction l with
  | nil => intro _; rfl
  | cons x l ih =>
    intro h
    rcases hx : f x with _ | b
    · have := h x (by simp)
      rw [hx] at this
      cases this
    · rw [List.filterMap_cons, hx, List.length_cons, List.length_cons,
        ih (fun y hy => h y (by simp [hy]))]

theorem embed_ok_of_cap (img : Image) (payload : List Nat)
    (hcond : ¬ 3 * (img.width * img.height) < (encodeBits payload).length) :
    embedInvisible img payload = .ok (embedded img payload) := by
  simp only [embedInvisible]
  rw [if_neg hcond]
  rfl

/-- Decoding an embedded payload whose byte length is a nonzero multiple of
2^32 recovers the empty payload: the 32-bit length prefix stores length 0. -/
theorem decode_embedded_truncZero (img : Image) (payload : List Nat)
    (hdl : img.data.length = 4 * (img.width * img.height))
    (hcap : 32 + 8 * payload.length ≤ 3 * (img.width * img.height))
    (hmod : payload.length % 2 ^ 32 = 0) :
    decodeInvisible (embedded img payload) = some [] := by
  have hext : (extractBits img.data 0).length = 3 * (img.width * img.height) := by
    have h := extractBits_length_aligned (img.width * img.height) img.data 0 hdl
    simpa using h
  have hEE := extractBits_embedData img.data (encodeBits payload) 0
    (encodeBits_lt_two payload) (by rw [encodeBits_length, hext]; omega)
  simp only [decodeInvisible, embedded]
  rw [hEE]
  simp only [encodeBits, List.append_assoc]
  rw [take_append_length _ _ 32 (natToBits_length 32 _), bitsToNat_natToBits, hmod]
  rw [if_neg (by omega : ¬ 3 * (img.width * img.height) < 32 + 8 * 0)]
  rw [Nat.mul_zero, List.take_zero]
  rfl

/-! ## Claim theorems -/

/-- C1 (amended): for every non-null, non-empty image URL, if either
watermarking step (invisible embed via `embedWatermark` or visible stamp
via `addVisibleWatermark`) throws, `applyWatermarks` returns the original
unwatermarked image URL unchanged instead of propagating the error, so the
generation flow is never aborted by a watermarking failure;
`applyWatermarks null` returns `null`, and `applyWatermarks ""` also
returns `null` through the same falsy guard, without invoking either
watermarking step.  (src/App.tsx lines 246-256.) -/
theorem c1_watermark_fallback (embedW addVisW : String → String → Except String String) :
    applyWatermarks embedW addVisW none = none ∧
    applyWatermarks embedW addVisW (some "") = none ∧
    (∀ url : String, url ≠ "" →
      ((∃ e, embedW url wmText = .error e) ∨
        (∃ s e, embedW url wmText = .ok s ∧ addVisW s wmText = .error e)) →
      applyWatermarks embedW addVisW (some url) = some url) := by
  refine ⟨rfl, rfl, fun url hne h => ?_⟩
  rcases h with ⟨e, he⟩ | ⟨s, e, hs, he⟩
  · simp [applyWatermarks, hne, he]
  · simp [applyWatermarks, hne, hs, he]

/-- Witness for C1 at a concrete non-empty URL and failing embed step. -/
theorem c1_watermark_fallback_witness :
    applyWatermarks (fun _ _ => .error "boom") (fun s _ => .ok s) (some "img") = some "img" :=
  (c1_watermark_fallback (fun _ _ => .error "boom") (fun s _ => .ok s)).2.2 "img"
    (by decide) (Or.inl ⟨"boom", rfl⟩)

/-- Counterexample to C1 as stated: the empty string is a non-null image
URL in the claim's sense, and the embed step below throws, yet the
program's falsy guard `if (!imageUrl) return null` returns `null` rather
than the original URL `""`. -/
theorem c1_watermark_fallback_counterexample :
    applyWatermarks (fun _ _ => .error "boom") (fun s _ => .ok s) (some "") = none ∧
    (none : Option String) ≠ some "" := by
  constructor
  · rfl
  · intro h
    cases h

/-- C2 (amended): round-trip holds for every well-formed image and every
non-empty byte payload whose encoded bit length (32-bit length prefix plus
payload bits) is at most the image's capacity, provided additionally that
the payload byte length is below 2^32, so that the fixed-width 32-bit
length prefix represents it exactly. -/
theorem c2_roundTrip (img : Image) (payload : List Nat)
    (hwf : WellFormed img) (_hne : payload ≠ [])
    (hbytes : ∀ b ∈ payload, b < 256)
    (hcap : 32 + 8 * payload.length ≤ 3 * (img.width * img.height))
    (hsmall : payload.length < 2 ^ 32) :
    ∃ out, embedInvisible img payload = .ok out ∧ decodeInvisible out = some payload :=
  ⟨embedded img payload, roundTrip_core img payload hwf hbytes hcap hsmall⟩

/-- Witness for C2 on a 4x4 image and the one-byte payload `[65]`. -/
theorem c2_roundTrip_witness :
    ∃ out, embedInvisible wImg [65] = .ok out ∧ decodeInvisible out = some [65] :=
  c2_roundTrip wImg [65] ⟨by decide, by decide⟩ (by decide) (by decide) (by decide)
    (by decide)

/-- Counterexample to C2 as stated: a payload of 2^32 zero bytes on a
2^34 x 1 image satisfies the claim's premises (non-empty, encoded bit
length within capacity), the embedding succeeds, yet decoding returns the
empty payload because the 32-bit length prefix stores 2^32 as 0. -/
theorem c2_roundTrip_counterexample :
    cPayload ≠ [] ∧ (∀ b ∈ cPayload, b < 256) ∧
    32 + 8 * cPayload.length ≤ 3 * (cImg.width * cImg.height) ∧
    embedInvisible cImg cPayload = .ok cOut ∧
    decodeInvisible cOut = some [] ∧
    some ([] : List Nat) ≠ some cPayload := by
  have hplen : cPayload.length = 2 ^ 32 := List.length_replicate _ _
  have hw : cImg.width = 2 ^ 34 := rfl
  have hh : cImg.height = 1 := rfl
  have hdl : cImg.data.length = 4 * (cImg.width * cImg.height) := by
    have h0 : cImg.data.length = 4 * 2 ^ 34 := List.length_replicate _ _
    rw [h0, hw, hh]
    norm_num
  have hext : (extractBits cImg.data 0).length = 3 * (cImg.width * cImg.height) := by
    have h := extractBits_length_aligned (cImg.width * cImg.height) cImg.data 0 hdl
    simpa using h
  have hcond : ¬ 3 * (cImg.width * cImg.height) < (encodeBits cPayload).length := by
    rw [encodeBits_length, hplen, hw, hh]
    norm_num
  refine ⟨?_, ?_, ?_, ?_, ?_, ?_⟩
  · exact List.length_pos.mp (by rw [hplen]; norm_num)
  · intro b hb
    have hb' : b ∈ List.replicate (2 ^ 32) (0 : Nat) := hb
    rw [List.eq_of_mem_replicate hb']
    norm_num
  · rw [hplen, hw, hh]
    norm_num
  · exact embed_ok_of_cap cImg cPayload hcond
  · exact decode_embedded_truncZero cImg cPayload hdl
      (by rw [hplen, hw, hh]; norm_num) (by rw [hplen, Nat.mod_self])
  · simp only [ne_eq, Option.some.injEq]
    intro h
    have hlen0 := congrArg List.length h
    rw [hplen] at hlen0
    norm_num at hlen0

/-- C3: `embedInvisible` fails with a Capacity Exceeded error (and never
silently truncates) exactly when length-prefix bits plus payload bits
exceed 3 x pixel count; a payload whose encoded bit length is within
capacity succeeds.  In particular, on a 2x2 RGBA image (capacity 12 bits)
the payload "hello" (UTF-8 bytes `[104,101,108,108,111]`, 32 + 40 bits)
fails with Capacity Exceeded. -/
theorem c3_capacity_boundary :
    (∀ (img : Image) (payload : List Nat),
      (∃ out, embedInvisible img payload = .ok out) ↔
        32 + 8 * payload.length ≤ 3 * (img.width * img.height)) ∧
    (∀ (img : Image) (payload : List Nat),
      embedInvisible img payload = .error .capacityExceeded ↔
        3 * (img.width * img.height) < 32 + 8 * payload.length) ∧
    embedInvisible ⟨2, 2, List.replicate 16 0⟩ [104, 101, 108, 108, 111] =
      .error .capacityExceeded := by
  have key : ∀ (img : Image) (payload : List Nat),
      embedInvisible img payload =
        if 3 * (img.width * img.height) < 32 + 8 * payload.length
        then .error .capacityExceeded
        else .ok (embedded img payload) := by
    intro img payload
    simp only [embedInvisible, encodeBits_length]
    rfl
  refine ⟨fun img payload => ?_, fun img payload => ?_, by rfl⟩
  · rw [key]
    by_cases hc : 3 * (img.width * img.height) < 32 + 8 * payload.length
    · rw [if_pos hc]
      constructor
      · rintro ⟨out, hout⟩; cases hout
      · intro h; omega
    · rw [if_neg hc]
      constructor
      · intro _; omega
      · intro _; exact ⟨embedded img payload, rfl⟩
  · rw [key]
    by_cases hc : 3 * (img.width * img.height) < 32 + 8 * payload.length
    · rw [if_pos hc]
      constructor
      · intro _; exact hc
      · intro _; rfl
    · rw [if_neg hc]
      constructor
      · intro h; cases h
      · intro h; exact absurd h hc

/-- C4: `decodeInvisible` is total by construction; whenever the 32-bit
declared length exceeds the image's theoretical capacity it returns `none`
(the Absent result) rather than reading out of bounds, and any payload it
does return on a well-formed image fits within the capacity bound (so the
extraction never reads past the available channel bits).  On an image
never embedded by this codec, the result is therefore `none` or a payload
passing the same bounds check, without any exception. -/
theorem c4_decoder_safety (img : Image) :
    (3 * (img.width * img.height) < 32 + 8 * declaredLen img →
      decodeInvisible img = none) ∧
    (WellFormed img → ∀ p, decodeInvisible img = some p →
      p.length = declaredLen img ∧
      32 + 8 * p.length ≤ 3 * (img.width * img.height)) := by
  constructor
  · intro h
    rw [declaredLen] at h
    simp only [decodeInvisible]
    rw [if_pos h]
  · intro hwf p hp
    simp only [decodeInvisible] at hp
    by_cases hc : 3 * (img.width * img.height) <
        32 + 8 * bitsToNat ((extractBits img.data 0).take 32)
    · rw [if_pos hc] at hp
      cases hp
    · rw [if_neg hc] at hp
      have hp' := Option.some.inj hp
      have hext : (extractBits img.data 0).length = 3 * (img.width * img.height) := by
        have h := extractBits_length_aligned (img.width * img.height) img.data 0 hwf.1
        simpa using h
      have htk : (((extractBits img.data 0).drop 32).take
          (8 * bitsToNat ((extractBits img.data 0).take 32))).length =
          8 * bitsToNat ((extractBits img.data 0).take 32) := by
        rw [List.length_take, List.length_drop, hext]
        omega
      have hlen := bitsToBytes_length_mul (bitsToNat ((extractBits img.data 0).take 32)) _ htk
      rw [← hp'] at *
      rw [declaredLen]
      constructor
      · exact hlen
      · rw [hlen]
        omega

/-- Witness for C4: a 1x1 image whose declared length (7) exceeds the
3-bit capacity decodes to Absent. -/
theorem c4_decoder_safety_witness : decodeInvisible ⟨1, 1, [255, 255, 255, 255]⟩ = none :=
  (c4_decoder_safety ⟨1, 1, [255, 255, 255, 255]⟩).1 (by decide)

/-- C5: frame condition of a successful embedding — the output image has
the input's dimensions and buffer length, every channel keeps its high
bits (so each value changes by at most 1, only in the least-significant
bit, hence at most the 3 color channels of each pixel change), and every
alpha channel (flat index `j` with `j % 4 = 3`) is unchanged. -/
theorem c5_frame_condition (img : Image) (payload : List Nat) (out : Image)
    (hok : embedInvisible img payload = .ok out) (j : Nat) :
    out.width = img.width ∧ out.height = img.height ∧
    out.data.length = img.data.length ∧
    (out.data.getD j 0) / 2 = (img.data.getD j 0) / 2 ∧
    out.data.getD j 0 ≤ img.data.getD j 0 + 1 ∧
    img.data.getD j 0 ≤ out.data.getD j 0 + 1 ∧
    (j % 4 = 3 → out.data.getD j 0 = img.data.getD j 0) := by
  have hout : out = embedded img payload := by
    simp only [embedInvisible] at hok
    by_cases hc : 3 * (img.width * img.height) < (encodeBits payload).length
    · rw [if_pos hc] at hok
      cases hok
    · rw [if_neg hc] at hok
      exact (Except.ok.inj hok).symm
  subst hout
  have hd : (embedded img payload).data = embedData img.data (encodeBits payload) 0 := rfl
  rw [hd]
  have h := embedData_getD img.data (encodeBits payload) 0 j (encodeBits_lt_two payload)
  have h1 := h.1
  have h2 : j % 4 = 3 →
      (embedData img.data (encodeBits payload) 0).getD j 0 = img.data.getD j 0 :=
    fun hj => h.2 (by simpa using hj)
  exact ⟨rfl, rfl, embedData_length _ _ _, h1, by omega, by omega, h2⟩

/-- Witness for C5 on a 4x4 image with payload `[3]`, checked at the alpha
channel of the first pixel. -/
theorem c5_frame_condition_witness :
    (embedded fImg [3]).data.getD 3 0 = fImg.data.getD 3 0 :=
  (c5_frame_condition fImg [3] (embedded fImg [3]) (by rfl) 3).2.2.2.2.2.2 (by norm_num)

/-- C6: `applyVisible` either returns a new image whose dimensions are
identical to the input's with the stamp composited in, or fails explicitly
with a Render Failure on a zero-sized image; the failure branch returns an
error, never the unmodified input. -/
theorem c6_applyVisible_contract (img : Image) (text : String) :
    (img.width = 0 ∨ img.height = 0 → applyVisible img text = .error .renderFailure) ∧
    (img.width ≠ 0 → img.height ≠ 0 →
      applyVisible img text =
        .ok ⟨img.width, img.height, compositeData img.width img.height img.data 0⟩ ∧
      ∀ out, applyVisible img text = .ok out →
        out.width = img.width ∧ out.height = img.height ∧
        out.data.length = img.data.length) := by
  constructor
  · intro h
    simp only [applyVisible]
    rw [if_pos h]
  · intro hw hh
    have hcond : ¬ (img.width = 0 ∨ img.height = 0) := by
      rintro (h | h)
      · exact hw h
      · exact hh h
    have hav : applyVisible img text =
        .ok ⟨img.width, img.height, compositeData img.width img.height img.data 0⟩ := by
      simp only [applyVisible]
      rw [if_neg hcond]
    refine ⟨hav, fun out hout => ?_⟩
    rw [hav] at hout
    have h := Except.ok.inj hout
    rw [← h]
    exact ⟨rfl, rfl, compositeData_length _ _ _ _⟩

/-- Witness for C6 at a 1x1 image and at a zero-sized image. -/
theorem c6_applyVisible_contract_witness :
    applyVisible ⟨0, 5, []⟩ "stamp" = .error .renderFailure ∧
    applyVisible ⟨1, 1, [9, 9, 9, 9]⟩ "stamp" =
      .ok ⟨1, 1, compositeData 1 1 [9, 9, 9, 9] 0⟩ :=
  ⟨(c6_applyVisible_contract ⟨0, 5, []⟩ "stamp").1 (Or.inl rfl),
    ((c6_applyVisible_contract ⟨1, 1, [9, 9, 9, 9]⟩ "stamp").2
      (by decide) (by decide)).1⟩

/-- C7: each codec operation is a pure function of its arguments — two
calls with equal inputs produce equal results (the model's operations are
stateless Lean functions over the pixel buffer, mirroring the spec's
"no shared state, each call is stateless and independent"). -/
theorem c7_determinism (i1 i2 : Image) (p1 p2 : List Nat) (t1 t2 : String)
    (hi : i1 = i2) (hp : p1 = p2) (ht : t1 = t2) :
    embedInvisible i1 p1 = embedInvisible i2 p2 ∧
    decodeInvisible i1 = decodeInvisible i2 ∧
    applyVisible i1 t1 = applyVisible i2 t2 := by
  subst hi
  subst hp
  subst ht
  exact ⟨rfl, rfl, rfl⟩

/-- Witness for C7 at concrete equal inputs. -/
theorem c7_determinism_witness :
    embedInvisible ⟨1, 1, [0, 0, 0, 0]⟩ [1] = embedInvisible ⟨1, 1, [0, 0, 0, 0]⟩ [1] ∧
    decodeInvisible ⟨1, 1, [0, 0, 0, 0]⟩ = decodeInvisible ⟨1, 1, [0, 0, 0, 0]⟩ ∧
    applyVisible ⟨1, 1, [0, 0, 0, 0]⟩ "t" = applyVisible ⟨1, 1, [0, 0, 0, 0]⟩ "t" :=
  c7_determinism ⟨1, 1, [0, 0, 0, 0]⟩ ⟨1, 1, [0, 0, 0, 0]⟩ [1] [1] "t" "t" rfl rfl rfl

theorem editImage_eq (resp : GenResponse) :
    editImage resp = (match (respContent resp).imageUrl with
      | some _ => .ok (respContent resp)
      | none =>
          .error (match (respContent resp).text with
            | some t =>
                if t = "" then noImageMessage resp
                else "The model responded: \"" ++ t ++ "\""
            | none => noImageMessage resp)) := rfl

/-- C9: for every model response, `editImage` either throws an `Error` or
resolves with a `GeneratedContent` whose `imageUrl` is a non-null data
URI; it never resolves with a null `imageUrl`, and when the model returned
no image and no text with finish reason SAFETY, the thrown message is the
safety-specific one. -/
theorem c9_editImage_never_null (resp : GenResponse) :
    ((∃ msg, editImage resp = .error msg) ∨
      (∃ r u, editImage resp = .ok r ∧ r.imageUrl = some u ∧ DataUri u)) ∧
    (∀ r, editImage resp = .ok r → r.imageUrl ≠ none) ∧
    ((respContent resp).imageUrl = none → (respContent resp).text = none →
      resp.candidates.head?.bind (·.finishReason) = some "SAFETY" →
      editImage resp = .error (safetyMessage resp)) := by
  refine ⟨?_, ?_, ?_⟩
  · rcases hr : (respContent resp).imageUrl with _ | u
    · left
      exact ⟨_, by rw [editImage_eq, hr]⟩
    · right
      rcases respContent_imageUrl resp with h0 | ⟨u', hu', hd⟩
      · rw [h0] at hr; cases hr
      · rw [hu'] at hr
        have hu2 : u' = u := Option.some.inj hr
        subst hu2
        exact ⟨respContent resp, _, by rw [editImage_eq, hu'], hu', hd⟩
  · intro r hok
    obtain ⟨-, u, hu, -⟩ := editImage_ok resp r hok
    rw [hu]
    simp
  · intro h1 h2 h3
    rw [editImage_eq, h1, h2]
    simp only [noImageMessage, h3, if_pos]

/-- Witness for C9: a SAFETY-blocked empty response throws the
safety-specific message. -/
theorem c9_editImage_never_null_witness :
    editImage sResp = .error (safetyMessage sResp) :=
  (c9_editImage_never_null sResp).2.2 rfl rfl rfl

theorem promiseAll_editImage_ok (rs : List GenResponse) (results : List GeneratedContent)
    (hp : promiseAll (rs.map editImage) = .ok results) :
    results.length = rs.length ∧ ∀ c ∈ results, (c.imageUrl).isSome := by
  have hmap := promiseAll_ok _ _ hp
  constructor
  · have := congrArg List.length hmap
    simpa using this.symm
  · intro c hc
    have hmem : Except.ok c ∈ rs.map editImage := by
      rw [hmap]
      exact List.mem_map_of_mem _ hc
    rw [List.mem_map] at hmem
    obtain ⟨r, _, hre⟩ := hmem
    obtain ⟨-, u, hu, -⟩ := editImage_ok r c hre
    rw [hu]
    rfl

theorem batch_eq_of_ok (rs : List GenResponse) (results : List GeneratedContent)
    (hp : promiseAll (rs.map editImage) = .ok results) :
    generateImageEditsBatch rs =
      if (results.filterMap (·.imageUrl)).isEmpty = true then .error batchFailMsg
      else .ok (results.filterMap (·.imageUrl)) := by
  simp only [generateImageEditsBatch]
  rw [hp]

theorem batch_eq_of_error (rs : List GenResponse) (e : String)
    (hp : promiseAll (rs.map editImage) = .error e) :
    generateImageEditsBatch rs = .error e := by
  simp only [generateImageEditsBatch]
  rw [hp]

/-- C8: with its four fanned-out `editImage` calls, whenever
`generateImageEditsBatch` resolves its result has exactly four image URLs;
it rejects iff at least one child call rejects, and every error it throws
is a child's error — in particular the internal
"Failed to generate any image variations" branch is unreachable. -/
theorem c8_batch_fanout (rs : List GenResponse) (h4 : rs.length = 4) :
    ((∃ urls, generateImageEditsBatch rs = .ok urls ∧ urls.length = 4) ↔
      ∀ r ∈ rs, ∃ c, editImage r = .ok c) ∧
    ((∃ e, generateImageEditsBatch rs = .error e) ↔
      ∃ r ∈ rs, ∃ e, editImage r = .error e) ∧
    (∀ e, generateImageEditsBatch rs = .error e → ∃ r ∈ rs, editImage r = .error e) := by
  have herr_core : ∀ e, generateImageEditsBatch rs = .error e →
      ∃ r ∈ rs, editImage r = .error e := by
    intro e he
    rcases hp : promiseAll (rs.map editImage) with e' | results
    · rw [batch_eq_of_error rs e' hp] at he
      cases he
      have hmem := promiseAll_error _ _ hp
      rw [List.mem_map] at hmem
      obtain ⟨r, hr, hre⟩ := hmem
      exact ⟨r, hr, hre⟩
    · rw [batch_eq_of_ok rs results hp] at he
      obtain ⟨hlen, hsome⟩ := promiseAll_editImage_ok rs results hp
      have hflen : (results.filterMap (·.imageUrl)).length = 4 := by
        rw [filterMap_length_of_isSome _ _ hsome, hlen, h4]
      by_cases hie : (results.filterMap (·.imageUrl)).isEmpty = true
      · rw [List.isEmpty_iff] at hie
        rw [hie] at hflen
        simp at hflen
      · rw [if_neg hie] at he
        cases he
  have hok_core : (∀ r ∈ rs, ∃ c, editImage r = .ok c) →
      ∃ urls, generateImageEditsBatch rs = .ok urls ∧ urls.length = 4 := by
    intro hall
    have hallok : ∀ x ∈ rs.map editImage, ∃ a, x = .ok a := by
      intro x hx
      rw [List.mem_map] at hx
      obtain ⟨r, hr, rfl⟩ := hx
      exact hall r hr
    obtain ⟨results, hres⟩ := promiseAll_of_all_ok _ hallok
    obtain ⟨hlen, hsome⟩ := promiseAll_editImage_ok rs results hres
    have hflen : (results.filterMap (·.imageUrl)).length = 4 := by
      rw [filterMap_length_of_isSome _ _ hsome, hlen, h4]
    have hie : ¬ (results.filterMap (·.imageUrl)).isEmpty = true := by
      rw [List.isEmpty_iff]
      intro h0
      rw [h0] at hflen
      simp at hflen
    refine ⟨results.filterMap (·.imageUrl), ?_, hflen⟩
    rw [batch_eq_of_ok rs results hres, if_neg hie]
  refine ⟨⟨?_, hok_core⟩, ⟨?_, ?_⟩, herr_core⟩
  · rintro ⟨urls, hurls, -⟩
    intro r hr
    rcases hp : promiseAll (rs.map editImage) with e' | results
    · rw [batch_eq_of_error rs e' hp] at hurls
      cases hurls
    · have hmap := promiseAll_ok _ _ hp
      have hmem : editImage r ∈ results.map Except.ok := by
        rw [← hmap]
        exact List.mem_map_of_mem _ hr
      rw [List.mem_map] at hmem
      obtain ⟨c, _, hce⟩ := hmem
      exact ⟨c, hce.symm⟩
  · rintro ⟨e, he⟩
    obtain ⟨r, hr, hre⟩ := herr_core e he
    exact ⟨r, hr, e, hre⟩
  · rintro ⟨r, hr, e, hre⟩
    have hmem : Except.error e ∈ rs.map editImage := by
      rw [List.mem_map]
      exact ⟨r, hr, hre⟩
    obtain ⟨e', he'⟩ := promiseAll_error_of_mem _ e hmem
    exact ⟨e', batch_eq_of_error rs e' he'⟩

/-- Witness for C8: four successful children yield exactly four URLs. -/
theorem c8_batch_fanout_witness :
    ∃ urls, generateImageEditsBatch [okResp, okResp, okResp, okResp] = .ok urls ∧
      urls.length = 4 :=
  (c8_batch_fanout [okResp, okResp, okResp, okResp] rfl).1.mpr (by
    intro r hr
    simp only [List.mem_cons, List.not_mem_nil, or_false] at hr
    rcases hr with rfl | rfl | rfl | rfl <;>
      exact ⟨⟨some "data:image/png;base64,AA", none⟩, rfl⟩)

/-- C10: `handleFiles` never exceeds the limit — when the current list has
length at most `maxImages`, at most `maxImages - length` of the offered
files are appended, the resulting list has length at most `maxImages`, and
the existing images stay in place as a prefix. -/
theorem c10_uploader_limit (imageUrls : List String) (maxImages : Nat)
    (files : List String) (hle : imageUrls.length ≤ maxImages) (out : List String)
    (hout : handleFiles imageUrls maxImages files = some out) :
    out.length ≤ maxImages ∧
    ∃ extra, out = imageUrls ++ extra ∧
      extra.length ≤ maxImages - imageUrls.length ∧ extra.length ≤ files.length := by
  simp only [handleFiles] at hout
  rw [if_neg (by omega : ¬ ((maxImages : Int) - (imageUrls.length : Int) < 0))] at hout
  rw [show ((maxImages : Int) - (imageUrls.length : Int)).toNat =
    maxImages - imageUrls.length by omega] at hout
  by_cases hie : (files.take (maxImages - imageUrls.length)).isEmpty = true
  · rw [if_pos hie] at hout
    cases hout
  · rw [if_neg hie] at hout
    have h := Option.some.inj hout
    refine ⟨?_, files.take (maxImages - imageUrls.length), h.symm, ?_, ?_⟩
    · rw [← h, List.length_append, List.length_take]
      omega
    · rw [List.length_take]
      omega
    · rw [List.length_take]
      omega

/-- Witness for C10: one existing image, limit 3, four offered files —
only two are appended. -/
theorem c10_uploader_limit_witness :
    handleFiles ["a"] 3 ["b", "c", "d", "e"] = some ["a", "b", "c"] ∧
    (["a", "b", "c"] : List String).length ≤ 3 :=
  ⟨by rfl,
    (c10_uploader_limit ["a"] 3 ["b", "c", "d", "e"] (by decide) ["a", "b", "c"]
      (by rfl)).1⟩

end Banana

